import Mathlib

/-!
Verification of the SynHash digest construction (src/SynHash.c).

The C source is shallowly embedded: 64-bit unsigned words are modelled as
natural numbers, with an explicit reduction modulo 2^64 exactly where the C
program can wrap (the left shifts and the addition; xor and right shift of
in-range words cannot leave the 64-bit range).  The two global state words
s0, s1 are modelled as an explicit MixState value threaded through the
functions; the top-level hash function overwrites them with the fixed seed
constants before any use, which the embedding mirrors.
-/

namespace SynHash

/-- The modulus of 64-bit unsigned arithmetic. -/
def U64 : Nat := 2 ^ 64

/-- The two global 64-bit state words s0 and s1 of src/SynHash.c (lines 7-8). -/
structure MixState where
  s0 : Nat
  s1 : Nat
deriving DecidableEq, Repr

/-- Seed constant assigned to s0 at the start of hash (line 61). -/
def SEED0 : Nat := 0x5555555555555555

/-- Seed constant assigned to s1 at the start of hash (line 62). -/
def SEED1 : Nat := 0xaaaaaaaaaaaaaaaa

/-- The state the C hash function installs before processing any block. -/
def seedState : MixState := ⟨SEED0, SEED1⟩

/-- Xorshift128X (src/SynHash.c lines 15-29): mixes x into the state and
returns the sum of the two previous state words.  Local b holds the old s0,
local a the old s1, exactly as in the source. -/
def Xorshift128X (st : MixState) (x : Nat) : Nat × MixState :=
  let c := (x <<< 30) % U64
  let b := st.s0
  let a := st.s1
  let result := (a + b) % U64
  let s0N := a ^^^ c
  let bN := b ^^^ ((b <<< 23) % U64)
  let s1N := bN ^^^ a ^^^ (bN >>> 18) ^^^ (a >>> 5)
  (result, ⟨s0N, s1N⟩)

/-- Modelled from the spec: the Bit Mixer step as section 4.1 of the spec
words it (new s0 from the old s0, b from the old s1).  Used only to compare
the spec text against the source function Xorshift128X. -/
def specMixStep (st : MixState) (x : Nat) : Nat × MixState :=
  let c := (x <<< 30) % U64
  let output := (st.s1 + st.s0) % U64
  let s0N := st.s0 ^^^ c
  let b := st.s1 ^^^ ((st.s1 <<< 23) % U64)
  let s1N := b ^^^ st.s0 ^^^ (b >>> 18) ^^^ (st.s0 >>> 5)
  (output, ⟨s0N, s1N⟩)

/-- Runs the mixer over a list of inputs, collecting every output and the
final state.  This is the stream of Xorshift128X calls a piece of code
performs, made explicit. -/
def mixRun (st : MixState) : List Nat → List Nat × MixState
  | [] => ([], st)
  | x :: xs =>
    ((Xorshift128X st x).1 :: (mixRun (Xorshift128X st x).2 xs).1,
     (mixRun (Xorshift128X st x).2 xs).2)

/-- One iteration of the loops of hashBlock (lines 41-48):
result ^= Xorshift128X(block[i]) with the state threaded along. -/
def mixStepFold (acc : Nat × MixState) (byte : Nat) : Nat × MixState :=
  (acc.1 ^^^ (Xorshift128X acc.2 byte).1, (Xorshift128X acc.2 byte).2)

/-- hashBlock (src/SynHash.c lines 37-51): xor of the mixer outputs over the
bytes first to last, then over the same bytes last to first (the C loop
for i = length; i > 0; i-- visits block in reverse). -/
def hashBlock (st : MixState) (block : List Nat) : Nat × MixState :=
  (block.reverse).foldl mixStepFold (block.foldl mixStepFold (0, st))

/-- subBlockSize = 8 (line 64). -/
def subBlockSize : Nat := 8

/-- blockSize = subBlockSize * 4 = 32 (line 65). -/
def blockSize : Nat := subBlockSize * 4

/-- numBlocks (lines 66-67): ceiling division of the length by 32, forced to
at least 1 for the empty message. -/
def numBlocks (length : Nat) : Nat :=
  let n := (length + blockSize - 1) / blockSize
  if n > 0 then n else 1

/-- The 32-byte padded block of index i (lines 75-84): the bytes of the
message from offset i*32, truncated at the message end and zero-filled up
to 32 bytes. -/
def paddedBlock (message : List Nat) (i : Nat) : List Nat :=
  let blockStart := i * blockSize
  let blockLength :=
    if blockStart + blockSize > message.length then message.length - blockStart
    else blockSize
  ((message.drop blockStart).take blockLength)
    ++ List.replicate (blockSize - blockLength) 0

/-- The 8-byte sub-block at index k of a padded block: the C code passes the
pointer paddedBlock + k * subBlockSize with length subBlockSize. -/
def subBlockAt (block : List Nat) (k : Nat) : List Nat :=
  (block.drop (k * subBlockSize)).take subBlockSize

/-- The four 64-bit accumulators finalHash[0..3] (line 70). -/
structure Digest4 where
  h0 : Nat
  h1 : Nat
  h2 : Nat
  h3 : Nat
deriving DecidableEq, Repr

/-- The body of one iteration of the block loop (lines 73-103): eight
hashBlock calls (blockHash0..blockHash7) with the state threaded through
them in program order, xor-accumulated into the four accumulators. -/
def processBlock (st : MixState) (fh : Digest4) (pb : List Nat) : Digest4 × MixState :=
  let r0 := hashBlock st (subBlockAt pb 0)
  let r1 := hashBlock r0.2 (subBlockAt pb 1)
  let r2 := hashBlock r1.2 (subBlockAt pb 2)
  let r3 := hashBlock r2.2 (subBlockAt pb 3)
  let r4 := hashBlock r3.2 (subBlockAt pb 3)
  let r5 := hashBlock r4.2 (subBlockAt pb 2)
  let r6 := hashBlock r5.2 (subBlockAt pb 1)
  let r7 := hashBlock r6.2 (subBlockAt pb 0)
  (⟨fh.h0 ^^^ r0.1 ^^^ r4.1,
    fh.h1 ^^^ r1.1 ^^^ r5.1,
    fh.h2 ^^^ r2.1 ^^^ r6.1,
    fh.h3 ^^^ r3.1 ^^^ r7.1⟩, r7.2)

/-- Modelled from the spec, for comparison with processBlock: the eight
Block Hasher calls in the order sub0, sub1, sub2, sub3, sub3, sub2, sub1,
sub0, performed by one fold that shares and advances a single state and
collects the eight 64-bit results. -/
def specBlockPass (st : MixState) (pb : List Nat) : List Nat × MixState :=
  ([0, 1, 2, 3, 3, 2, 1, 0] : List Nat).foldl
    (fun acc k =>
      (acc.1 ++ [(hashBlock acc.2 (subBlockAt pb k)).1],
       (hashBlock acc.2 (subBlockAt pb k)).2))
    ([], st)

/-- The full stream of mixer inputs consumed while processing one padded
block: each of the eight hashBlock calls consumes its sub-block forward and
then reversed. -/
def blockStream (pb : List Nat) : List Nat :=
  (([0, 1, 2, 3, 3, 2, 1, 0] : List Nat).map
    (fun k => subBlockAt pb k ++ (subBlockAt pb k).reverse)).flatten

/-- The block loop of hash (lines 70-103): accumulators start at zero, the
state starts at the seed constants, and every block advances both. -/
def hashBlocks (msg : List Nat) : Digest4 × MixState :=
  (List.range (numBlocks msg.length)).foldl
    (fun acc i => processBlock acc.2 acc.1 (paddedBlock msg i))
    (⟨0, 0, 0, 0⟩, seedState)

/-- One lowercase hexadecimal digit character, as produced by printf %x. -/
def hexDigitChar (d : Nat) : Char :=
  if d < 10 then Char.ofNat (48 + d) else Char.ofNat (87 + d)

/-- A 64-bit word rendered as 16 lowercase hexadecimal digits, most
significant digit first, exactly like the printf conversion %016lx. -/
def toHex16 (n : Nat) : String :=
  String.mk ((List.range 16).map (fun i => hexDigitChar (n / 16 ^ (15 - i) % 16)))

/-- hash (src/SynHash.c lines 59-108): reset the state to the seeds, fold
the block loop, then render finalHash[3], finalHash[2], finalHash[1],
finalHash[0] as 16 lowercase hex digits each (line 106). -/
def hash (msg : List Nat) : String :=
  toHex16 (hashBlocks msg).1.h3 ++ toHex16 (hashBlocks msg).1.h2
    ++ toHex16 (hashBlocks msg).1.h1 ++ toHex16 (hashBlocks msg).1.h0

/-- hash together with the observable global state: the C function begins by
overwriting the globals s0, s1 with the seed constants (lines 61-62), so the
incoming state is never read; afterwards the globals hold the state threaded
through every block, which is not restored. -/
def hashG (_preState : MixState) (msg : List Nat) : String × MixState :=
  (hash msg, (hashBlocks msg).2)

/-- True exactly on the characters the conversion %lx accepts as digits. -/
def isHexDigitChar (c : Char) : Bool :=
  (decide ('0' ≤ c) && decide (c ≤ '9'))
    || (decide ('a' ≤ c) && decide (c ≤ 'f'))
    || (decide ('A' ≤ c) && decide (c ≤ 'F'))

/-- The numeric value of a hexadecimal digit character. -/
def hexVal (c : Char) : Nat :=
  if c ≤ '9' then c.toNat - 48
  else if c ≤ 'F' then c.toNat - 55
  else c.toNat - 87

/-- One sscanf conversion %16lx on the remaining characters: consume the
longest run of hexadecimal digits, at most 16 of them, and return its value
with the rest of the input; fail (matching failure, sscanf stops assigning)
when no digit is present.  The sscanf whitespace and 0x-prefix handling is
irrelevant for digest strings and is not modelled. -/
def scan16lx (cs : List Char) : Option (Nat × List Char) :=
  let digits := (cs.takeWhile isHexDigitChar).take 16
  if digits.isEmpty then none
  else some (digits.foldl (fun a c => 16 * a + hexVal c) 0, cs.drop digits.length)

/-- sscanf(s, percent-16lx four times, ...): the list of values actually
assigned, in order; its length is the sscanf return value (0 to 4). -/
def sscanf4lx (s : String) : List Nat :=
  match scan16lx s.data with
  | none => []
  | some (v0, r0) =>
    match scan16lx r0 with
    | none => [v0]
    | some (v1, r1) =>
      match scan16lx r1 with
      | none => [v0, v1]
      | some (v2, r2) =>
        match scan16lx r2 with
        | none => [v0, v1, v2]
        | some (v3, _) => [v0, v1, v2, v3]

/-- The bit-counting loop of hammingDistance (lines 124-127):
while (xorVal) add the low bit and shift right.  On uint64 operands the loop
runs at most 64 times, which the explicit 64-step bound mirrors. -/
def popCountAux : Nat → Nat → Nat
  | 0, _ => 0
  | fuel + 1, n => if n = 0 then 0 else n % 2 + popCountAux fuel (n / 2)

/-- Number of set bits of a 64-bit word, as the C loop computes it. -/
def popCount (n : Nat) : Nat := popCountAux 64 n

/-- hammingDistance (src/SynHash.c lines 116-130).  The C code never checks
the sscanf return values, so any bin1 or bin2 entry beyond the assigned
prefix keeps the indeterminate contents of the uninitialized stack array;
those contents are made explicit as the junk1 and junk2 parameters (reduced
mod 2^64, since the locals are uint64_t). -/
def hammingDistance (junk1 junk2 : Nat → Nat) (hex1 hex2 : String) : Nat :=
  let bin1 := sscanf4lx hex1
  let bin2 := sscanf4lx hex2
  (List.range 4).foldl
    (fun distance i =>
      distance + popCount ((bin1.getD i (junk1 i % U64)) ^^^ (bin2.getD i (junk2 i % U64))))
    0

/-- A syntactically well-formed digest made of 64 zero digits. -/
def zeros64 : String := String.mk (List.replicate 64 '0')

/-- True on the characters [0-9a-f], the alphabet of a rendered digest. -/
def hexCharOK (c : Char) : Bool :=
  (decide ('0' ≤ c) && decide (c ≤ '9')) || (decide ('a' ≤ c) && decide (c ≤ 'f'))

/-- Reads a big-endian string of hexadecimal digit characters back into the
number it denotes. -/
def hexValFold (l : List Char) : Nat :=
  l.foldl (fun a c => 16 * a + hexVal c) 0

/- ------------------------------------------------------------------ -/
/- Helper lemmas -/
/- ------------------------------------------------------------------ -/

lemma U64_pos : 0 < U64 := by decide

lemma xor_lt_U64 {a b : Nat} (ha : a < U64) (hb : b < U64) : a ^^^ b < U64 :=
  Nat.xor_lt_two_pow ha hb

lemma shiftRight_lt_U64 {a : Nat} (k : Nat) (ha : a < U64) : a >>> k < U64 :=
  Nat.lt_of_le_of_lt
    (by rw [Nat.shiftRight_eq_div_pow]; exact Nat.div_le_self a (2 ^ k)) ha

lemma mix_fst_lt (st : MixState) (x : Nat) : (Xorshift128X st x).1 < U64 :=
  Nat.mod_lt _ U64_pos

lemma mixRun_nil (st : MixState) : mixRun st [] = ([], st) := rfl

lemma mixRun_cons (st : MixState) (x : Nat) (xs : List Nat) :
    mixRun st (x :: xs) =
      ((Xorshift128X st x).1 :: (mixRun (Xorshift128X st x).2 xs).1,
       (mixRun (Xorshift128X st x).2 xs).2) := rfl

lemma mixRun_append (st : MixState) (l1 l2 : List Nat) :
    mixRun st (l1 ++ l2) =
      ((mixRun st l1).1 ++ (mixRun (mixRun st l1).2 l2).1,
       (mixRun (mixRun st l1).2 l2).2) := by
  induction l1 generalizing st with
  | nil => simp [mixRun_nil]
  | cons x xs ih => simp [mixRun_cons, ih]

lemma mixRun_length (st : MixState) (l : List Nat) :
    (mixRun st l).1.length = l.length := by
  induction l generalizing st with
  | nil => rfl
  | cons x xs ih => simp [mixRun_cons, ih]

lemma mixRun_mem_lt (st : MixState) (l : List Nat) :
    ∀ o ∈ (mixRun st l).1, o < U64 := by
  induction l generalizing st with
  | nil => intro o ho; simp [mixRun_nil] at ho
  | cons x xs ih =>
    intro o ho
    rw [mixRun_cons] at ho
    rcases List.mem_cons.mp ho with h | h
    · exact h ▸ mix_fst_lt st x
    · exact ih _ o h

lemma foldl_mixStep (l : List Nat) : ∀ (st : MixState) (r : Nat),
    l.foldl mixStepFold (r, st) =
      (((mixRun st l).1).foldl (fun a o => a ^^^ o) r, (mixRun st l).2) := by
  induction l with
  | nil => intro st r; rfl
  | cons x xs ih =>
    intro st r
    rw [List.foldl_cons, mixRun_cons]
    exact ih (Xorshift128X st x).2 (r ^^^ (Xorshift128X st x).1)

lemma hashBlock_eq (st : MixState) (block : List Nat) :
    hashBlock st block =
      (((mixRun st (block ++ block.reverse)).1).foldl (fun a o => a ^^^ o) 0,
       (mixRun st (block ++ block.reverse)).2) := by
  rw [hashBlock, foldl_mixStep, foldl_mixStep, mixRun_append, List.foldl_append]

lemma foldl_xor_lt {l : List Nat} {r : Nat} (hr : r < U64)
    (hl : ∀ o ∈ l, o < U64) : l.foldl (fun a o => a ^^^ o) r < U64 := by
  induction l generalizing r with
  | nil => exact hr
  | cons x xs ih =>
    rw [List.foldl_cons]
    exact ih (xor_lt_U64 hr (hl x (List.mem_cons_self x xs)))
      (fun o ho => hl o (List.mem_cons_of_mem x ho))

lemma hashBlock_fst_lt (st : MixState) (block : List Nat) :
    (hashBlock st block).1 < U64 := by
  rw [hashBlock_eq]
  exact foldl_xor_lt U64_pos (mixRun_mem_lt st _)

lemma blockSize_eq : blockSize = 32 := rfl

lemma numBlocks_pos_eq {L : Nat} (hL : 0 < L) : numBlocks L = (L + 31) / 32 := by
  show (if (L + blockSize - 1) / blockSize > 0 then (L + blockSize - 1) / blockSize else 1)
      = (L + 31) / 32
  rw [blockSize_eq]
  have hpos : (L + 32 - 1) / 32 > 0 := by omega
  rw [if_pos hpos]
  omega

lemma paddedBlock_length (msg : List Nat) (i : Nat) : (paddedBlock msg i).length = 32 := by
  simp only [paddedBlock, blockSize_eq, List.length_append, List.length_take,
    List.length_drop, List.length_replicate]
  split_ifs <;> omega

lemma getElem?_eq_some_getD (l : List Nat) (n : Nat) (h : n < l.length) :
    l[n]? = some (l.getD n 0) := by
  rw [List.getElem?_eq_getElem h, List.getD_eq_getElem l 0 h]

lemma paddedBlock_eq (msg : List Nat) (i : Nat) :
    paddedBlock msg i = (List.range blockSize).map
      (fun j => if i * blockSize + j < msg.length then msg.getD (i * blockSize + j) 0 else 0) := by
  apply List.ext_getElem?
  intro j
  simp only [paddedBlock, blockSize_eq, List.getElem?_append, List.getElem?_take,
    List.getElem?_drop, List.getElem?_replicate, List.getElem?_map, List.getElem?_range,
    List.length_take, List.length_drop]
  rcases Nat.lt_or_ge j 32 with hj | hj
  · rw [List.getElem?_range hj, Option.map_some']
    by_cases hin : i * 32 + j < msg.length
    · rw [if_pos hin]
      have hsome := getElem?_eq_some_getD msg (i * 32 + j) hin
      simp only [Nat.min_def]
      split_ifs <;> first | rw [hsome] | omega
    · rw [if_neg hin]
      simp only [Nat.min_def]
      split_ifs <;> first | rfl | omega
  · have hr : (List.range 32)[j]? = none := List.getElem?_eq_none (by simpa using hj)
    rw [hr, Option.map_none']
    simp only [Nat.min_def]
    split_ifs <;> first | rfl | omega

lemma toHex16_data (n : Nat) :
    (toHex16 n).data = (List.range 16).map (fun i => hexDigitChar (n / 16 ^ (15 - i) % 16)) := rfl

lemma toHex16_data_length (n : Nat) : (toHex16 n).data.length = 16 := by
  rw [toHex16_data]; simp

lemma toHex16_length (n : Nat) : (toHex16 n).length = 16 := toHex16_data_length n

lemma hexDigitChar_ok {d : Nat} (hd : d < 16) : hexCharOK (hexDigitChar d) = true := by
  interval_cases d <;> decide

lemma hexVal_hexDigitChar {d : Nat} (hd : d < 16) : hexVal (hexDigitChar d) = d := by
  interval_cases d <;> decide

lemma toHex16_all (n : Nat) : (toHex16 n).data.all hexCharOK = true := by
  rw [toHex16_data, List.all_eq_true]
  intro c hc
  obtain ⟨i, hi, rfl⟩ := List.mem_map.mp hc
  exact hexDigitChar_ok (Nat.mod_lt _ (by decide))

lemma digitsFold (k : Nat) : ∀ n : Nat,
    ((List.range k).map (fun i => n / 16 ^ (k - 1 - i) % 16)).foldl (fun a d => 16 * a + d) 0
      = n % 16 ^ k := by
  induction k with
  | zero => intro n; simp [Nat.mod_one]
  | succ k ih =>
    intro n
    rw [List.range_succ, List.map_append, List.foldl_append]
    have hmap : (List.range k).map (fun i => n / 16 ^ (k + 1 - 1 - i) % 16)
        = (List.range k).map (fun i => (n / 16) / 16 ^ (k - 1 - i) % 16) := by
      apply List.map_congr_left
      intro a ha
      have hak : a < k := List.mem_range.mp ha
      have he : k + 1 - 1 - a = (k - 1 - a) + 1 := by omega
      rw [he, pow_succ, Nat.mul_comm, ← Nat.div_div_eq_div_mul]
    rw [hmap, ih (n / 16)]
    simp only [List.map_cons, List.map_nil, List.foldl_cons, List.foldl_nil]
    have h0 : k + 1 - 1 - k = 0 := by omega
    rw [h0, pow_zero, Nat.div_one, pow_succ, Nat.mul_comm (16 ^ k) 16, Nat.mod_mul]
    omega

lemma toHex16_fold {n : Nat} (hn : n < U64) : hexValFold (toHex16 n).data = n := by
  rw [hexValFold, toHex16_data, List.foldl_map]
  have hcong : (List.range 16).foldl
        (fun a i => 16 * a + hexVal (hexDigitChar (n / 16 ^ (15 - i) % 16))) 0
      = (List.range 16).foldl (fun a i => 16 * a + n / 16 ^ (15 - i) % 16) 0 := by
    apply List.foldl_ext
    intro a x hx
    rw [hexVal_hexDigitChar (Nat.mod_lt _ (by decide))]
  rw [hcong]
  have hd := digitsFold 16 n
  rw [List.foldl_map] at hd
  simp only [show (16 : Nat) - 1 = 15 from rfl] at hd
  rw [hd, show (16 : Nat) ^ 16 = U64 from by decide, Nat.mod_eq_of_lt hn]

lemma foldl_inv {α β : Type} (P : α → Prop) (f : α → β → α) :
    ∀ (l : List β) (a : α), P a → (∀ a b, P a → P (f a b)) → P (l.foldl f a) := by
  intro l
  induction l with
  | nil => intro a h _; exact h
  | cons x xs ih => intro a h hf; exact ih (f a x) (hf a x h) hf

lemma processBlock_bounds (st : MixState) (fh : Digest4) (pb : List Nat)
    (h : fh.h0 < U64 ∧ fh.h1 < U64 ∧ fh.h2 < U64 ∧ fh.h3 < U64) :
    (processBlock st fh pb).1.h0 < U64 ∧ (processBlock st fh pb).1.h1 < U64
      ∧ (processBlock st fh pb).1.h2 < U64 ∧ (processBlock st fh pb).1.h3 < U64 := by
  obtain ⟨h0, h1, h2, h3⟩ := h
  simp only [processBlock]
  exact ⟨xor_lt_U64 (xor_lt_U64 h0 (hashBlock_fst_lt _ _)) (hashBlock_fst_lt _ _),
    xor_lt_U64 (xor_lt_U64 h1 (hashBlock_fst_lt _ _)) (hashBlock_fst_lt _ _),
    xor_lt_U64 (xor_lt_U64 h2 (hashBlock_fst_lt _ _)) (hashBlock_fst_lt _ _),
    xor_lt_U64 (xor_lt_U64 h3 (hashBlock_fst_lt _ _)) (hashBlock_fst_lt _ _)⟩

lemma hashBlocks_lt (msg : List Nat) :
    (hashBlocks msg).1.h0 < U64 ∧ (hashBlocks msg).1.h1 < U64
      ∧ (hashBlocks msg).1.h2 < U64 ∧ (hashBlocks msg).1.h3 < U64 := by
  refine foldl_inv
    (fun acc : Digest4 × MixState =>
      acc.1.h0 < U64 ∧ acc.1.h1 < U64 ∧ acc.1.h2 < U64 ∧ acc.1.h3 < U64)
    (fun acc i => processBlock acc.2 acc.1 (paddedBlock msg i))
    (List.range (numBlocks msg.length)) (⟨0, 0, 0, 0⟩, seedState)
    ⟨U64_pos, U64_pos, U64_pos, U64_pos⟩ ?_
  intro acc i hacc
  exact processBlock_bounds acc.2 acc.1 (paddedBlock msg i) hacc

/- ------------------------------------------------------------------ -/
/- Claim theorems -/
/- ------------------------------------------------------------------ -/

/-- C1 (code_bug evidence): on the malformed input "xyz" the sscanf model
assigns nothing, yet hammingDistance still returns an ordinary count whose
value depends on the indeterminate contents of the uninitialized locals
(0 for one stack content, 16 for another); no error is signalled.  On
well-formed 64-digit inputs all four groups parse and the junk is dead. -/
theorem hammingDistance_ignores_parse_failure :
    sscanf4lx "xyz" = []
  ∧ hammingDistance (fun _ => 0) (fun _ => 0) "xyz" zeros64 = 0
  ∧ hammingDistance (fun _ => 15) (fun _ => 0) "xyz" zeros64 = 16
  ∧ (sscanf4lx zeros64).length = 4
  ∧ hammingDistance (fun _ => 15) (fun _ => 7) zeros64 zeros64 = 0 := by decide

/-- C2 (counterexample): at state (0, 1) with input 0 the code updates the
state to (1, 1) while the formula of the claim (spec section 4.1) yields
(0, 8388641); the claimed state update is false of Xorshift128X. -/
theorem mixer_update_counterexample :
    Xorshift128X ⟨0, 1⟩ 0 = (1, ⟨1, 1⟩)
  ∧ specMixStep ⟨0, 1⟩ 0 = (1, ⟨0, 8388641⟩)
  ∧ (Xorshift128X ⟨0, 1⟩ 0).2 ≠ (specMixStep ⟨0, 1⟩ 0).2 := by decide

/-- C2 (amended): one mixer call returns (s1 + s0) mod 2^64 and sets
s0 to s1 xor (x shifted left 30) and s1 to b xor s1 xor (b shifted right
18) xor (s1 shifted right 5) where b = s0 xor (s0 shifted left 23) is
built from the old s0 - the roles of s0 and s1 are swapped relative to the
claim.  On 64-bit states every result is again a 64-bit word. -/
theorem mixer_update_amended (st : MixState) (x : Nat)
    (h0 : st.s0 < U64) (h1 : st.s1 < U64) :
    Xorshift128X st x =
      ((st.s1 + st.s0) % U64,
       ⟨st.s1 ^^^ ((x <<< 30) % U64),
        (st.s0 ^^^ ((st.s0 <<< 23) % U64)) ^^^ st.s1
          ^^^ ((st.s0 ^^^ ((st.s0 <<< 23) % U64)) >>> 18) ^^^ (st.s1 >>> 5)⟩)
  ∧ (Xorshift128X st x).1 < U64
  ∧ (Xorshift128X st x).2.s0 < U64
  ∧ (Xorshift128X st x).2.s1 < U64 := by
  refine ⟨rfl, Nat.mod_lt _ U64_pos, ?_, ?_⟩
  · exact xor_lt_U64 h1 (Nat.mod_lt _ U64_pos)
  · exact xor_lt_U64
      (xor_lt_U64 (xor_lt_U64 (xor_lt_U64 h0 (Nat.mod_lt _ U64_pos)) h1)
        (shiftRight_lt_U64 18 (xor_lt_U64 h0 (Nat.mod_lt _ U64_pos))))
      (shiftRight_lt_U64 5 h1)

/-- C2 (witness): the amended mixer characterization applied at the
concrete state (0, 1) with input 0. -/
theorem mixer_update_amended_witness :
    (0 : Nat) < U64 ∧ (1 : Nat) < U64 ∧
    (Xorshift128X ⟨0, 1⟩ 0 =
      (((1 : Nat) + 0) % U64,
       ⟨(1 : Nat) ^^^ (((0 : Nat) <<< 30) % U64),
        ((0 : Nat) ^^^ (((0 : Nat) <<< 23) % U64)) ^^^ 1
          ^^^ (((0 : Nat) ^^^ (((0 : Nat) <<< 23) % U64)) >>> 18) ^^^ ((1 : Nat) >>> 5)⟩)
  ∧ (Xorshift128X ⟨0, 1⟩ 0).1 < U64
  ∧ (Xorshift128X ⟨0, 1⟩ 0).2.s0 < U64
  ∧ (Xorshift128X ⟨0, 1⟩ 0).2.s1 < U64) :=
  ⟨by decide, by decide, mixer_update_amended ⟨0, 1⟩ 0 (by decide) (by decide)⟩

/-- C3: hashBlock equals the xor of the mixer outputs over the byte list
followed by the reversed byte list, threading one advancing state, and the
number of mixer calls it makes is exactly twice the block length. -/
theorem hashBlock_two_pass (st : MixState) (block : List Nat) :
    hashBlock st block =
      (((mixRun st (block ++ block.reverse)).1).foldl (fun a o => a ^^^ o) 0,
       (mixRun st (block ++ block.reverse)).2)
  ∧ (mixRun st (block ++ block.reverse)).1.length = 2 * block.length := by
  refine ⟨hashBlock_eq st block, ?_⟩
  rw [mixRun_length, List.length_append, List.length_reverse]
  omega

/-- C7: the digest computation resets the mixer state to the fixed seed
constants first, so its output never depends on the state the globals held
before the call, and repeated calls agree. -/
theorem digest_reset_deterministic (st1 st2 : MixState) (msg : List Nat) :
    hashG st1 msg = hashG st2 msg
  ∧ hashG st1 msg = hashG seedState msg
  ∧ (hashG st1 msg).1 = hash msg := ⟨rfl, rfl, rfl⟩

/-- C8 (counterexample): from state (0, 0) with input byte 0 two successive
mixer calls return the same output 0, and the two mixer outputs made inside
the hashBlock run on the one-byte block [0] are [0, 0], not pairwise
distinct. -/
theorem mixer_repeat_counterexample :
    (Xorshift128X ⟨0, 0⟩ 0).1 = 0
  ∧ (Xorshift128X (Xorshift128X ⟨0, 0⟩ 0).2 0).1 = 0
  ∧ hashBlock ⟨0, 0⟩ [0] = (0, ⟨0, 0⟩)
  ∧ (mixRun ⟨0, 0⟩ ([0] ++ [0].reverse)).1 = [0, 0] := by decide

/-- C8 (amended): each call applies the state transition, but that does not
make outputs fresh: the transition has a fixed point at state (0, 0) with
input 0, where every call returns 0 again, so the 2n mixer outputs of one
hashBlock invocation need not be pairwise distinct. -/
theorem mixer_repeat_amended :
    (Xorshift128X ⟨0, 0⟩ 0).2 = (⟨0, 0⟩ : MixState)
  ∧ mixRun ⟨0, 0⟩ (List.replicate 16 0) = (List.replicate 16 0, ⟨0, 0⟩)
  ∧ hashBlock ⟨0, 0⟩ (List.replicate 8 0) = (0, ⟨0, 0⟩) := by decide

set_option maxRecDepth 100000 in
/-- C9 (counterexample): the global state words are not restored: calling
the digest function on the empty message with prior state (0, 0) leaves the
globals at the advanced value (0x6b168fd5bcfdace8, 0xb8364e5d9f33fab4),
different from their pre-call value. -/
theorem state_restore_counterexample :
    (hashG ⟨0, 0⟩ []).2 = (⟨0x6b168fd5bcfdace8, 0xb8364e5d9f33fab4⟩ : MixState)
  ∧ (hashG ⟨0, 0⟩ []).2 ≠ (⟨0, 0⟩ : MixState) := by decide

/-- C9 (amended): the digest call does mutate the global state words, but
their post-call value is a function of the message alone - it never depends
on the pre-call state, so no later digest computation can observe anything
of the state that held before the call. -/
theorem post_state_independent (st1 st2 : MixState) (msg : List Nat) :
    (hashG st1 msg).2 = (hashG st2 msg).2
  ∧ (hashG st1 msg).2 = (hashBlocks msg).2 := ⟨rfl, rfl⟩

set_option maxRecDepth 100000 in
/-- C10: the digest of the empty message processes the single all-zero
padded block and is the fixed 64-digit string below, which is not the
all-zero string. -/
theorem empty_digest_golden :
    hash [] = "7d81bc06988293b549f0f7607044d93296ffeaffaaf9dfef82ca3f40841dae6f"
  ∧ hash [] ≠ String.mk (List.replicate 64 '0')
  ∧ numBlocks 0 = 1
  ∧ paddedBlock [] 0 = List.replicate 32 0 := by decide

/-- C4: the number of blocks is the ceiling of length/32, with a floor of
one block for the empty message; block i is the 32-byte window of the
message at offset i*32, right-padded with zero bytes past the message end;
lengths 31 and 32 give one block, length 33 gives two. -/
theorem numBlocks_padding (L : Nat) (hL : 0 < L) (msg : List Nat) (i : Nat) :
    numBlocks 0 = 1
  ∧ L ≤ blockSize * numBlocks L
  ∧ blockSize * (numBlocks L - 1) < L
  ∧ (paddedBlock msg i).length = blockSize
  ∧ paddedBlock msg i = (List.range blockSize).map
      (fun j => if i * blockSize + j < msg.length then msg.getD (i * blockSize + j) 0 else 0)
  ∧ numBlocks 31 = 1 ∧ numBlocks 32 = 1 ∧ numBlocks 33 = 2 := by
  refine ⟨by decide, ?_, ?_, ?_, paddedBlock_eq msg i, by decide, by decide, by decide⟩
  · rw [blockSize_eq, numBlocks_pos_eq hL]; omega
  · rw [blockSize_eq, numBlocks_pos_eq hL]; omega
  · rw [blockSize_eq]; exact paddedBlock_length msg i

/-- C4 (witness): the block-count and padding characterization applied at
message length 33 with the one-byte message [7] and block index 0. -/
theorem numBlocks_padding_witness :
    0 < 33 ∧ (numBlocks 0 = 1
  ∧ 33 ≤ blockSize * numBlocks 33
  ∧ blockSize * (numBlocks 33 - 1) < 33
  ∧ (paddedBlock [7] 0).length = blockSize
  ∧ paddedBlock [7] 0 = (List.range blockSize).map
      (fun j => if 0 * blockSize + j < ([7] : List Nat).length
        then ([7] : List Nat).getD (0 * blockSize + j) 0 else 0)
  ∧ numBlocks 31 = 1 ∧ numBlocks 32 = 1 ∧ numBlocks 33 = 2) :=
  ⟨by decide, numBlocks_padding 33 (by decide) [7] 0⟩

/-- C5: one message block is processed by exactly eight Block Hasher calls
threading a single advancing mixer state - the sub-blocks at offsets 0, 8,
16, 24 forward and then the same sub-blocks in reverse order - and the
results land in the accumulators as h0 from calls 0 and 4, h1 from calls 1
and 5, h2 from calls 2 and 6, h3 from calls 3 and 7; the final state equals
the state of one uninterrupted mixer-call stream over all eight passes. -/
theorem block_eight_calls (st : MixState) (fh : Digest4) (pb : List Nat) :
    processBlock st fh pb =
      (⟨fh.h0 ^^^ (specBlockPass st pb).1.getD 0 0 ^^^ (specBlockPass st pb).1.getD 4 0,
        fh.h1 ^^^ (specBlockPass st pb).1.getD 1 0 ^^^ (specBlockPass st pb).1.getD 5 0,
        fh.h2 ^^^ (specBlockPass st pb).1.getD 2 0 ^^^ (specBlockPass st pb).1.getD 6 0,
        fh.h3 ^^^ (specBlockPass st pb).1.getD 3 0 ^^^ (specBlockPass st pb).1.getD 7 0⟩,
       (specBlockPass st pb).2)
  ∧ (specBlockPass st pb).1.length = 8
  ∧ (processBlock st fh pb).2 = (mixRun st (blockStream pb)).2 := by
  refine ⟨rfl, rfl, ?_⟩
  simp only [processBlock, blockStream, List.map_cons, List.map_nil, List.flatten_cons,
    List.flatten_nil, List.append_nil, hashBlock_eq, mixRun_append]

/-- C6: the digest string is the four accumulators rendered h3, h2, h1, h0,
16 lowercase hexadecimal digits each, most significant digit first: its
length is always 64, every character is in [0-9a-f], and reading the first
and the last 16-character group back as big-endian hexadecimal recovers h3
and h0. -/
theorem digest_hex_format (msg : List Nat) :
    (hash msg).length = 64
  ∧ (hash msg).data.all hexCharOK = true
  ∧ hash msg = toHex16 (hashBlocks msg).1.h3 ++ toHex16 (hashBlocks msg).1.h2
      ++ toHex16 (hashBlocks msg).1.h1 ++ toHex16 (hashBlocks msg).1.h0
  ∧ hexValFold ((hash msg).data.take 16) = (hashBlocks msg).1.h3
  ∧ hexValFold ((hash msg).data.drop 48) = (hashBlocks msg).1.h0 := by
  obtain ⟨b0, b1, b2, b3⟩ := hashBlocks_lt msg
  have hdata : (hash msg).data
      = (toHex16 (hashBlocks msg).1.h3).data
        ++ ((toHex16 (hashBlocks msg).1.h2).data
          ++ ((toHex16 (hashBlocks msg).1.h1).data
            ++ (toHex16 (hashBlocks msg).1.h0).data)) := by
    simp [hash, String.data_append, List.append_assoc]
  have hdata2 : (hash msg).data
      = ((toHex16 (hashBlocks msg).1.h3).data
          ++ (toHex16 (hashBlocks msg).1.h2).data
          ++ (toHex16 (hashBlocks msg).1.h1).data)
        ++ (toHex16 (hashBlocks msg).1.h0).data := by
    simp [hash, String.data_append, List.append_assoc]
  refine ⟨?_, ?_, rfl, ?_, ?_⟩
  · show (hash msg).data.length = 64
    rw [hdata]
    simp [toHex16_data_length, toHex16_length]
  · rw [hdata]
    simp only [List.all_append, Bool.and_eq_true]
    exact ⟨toHex16_all _, toHex16_all _, toHex16_all _, toHex16_all _⟩
  · rw [hdata, List.take_left' (toHex16_data_length _)]
    exact toHex16_fold b3
  · rw [hdata2, List.drop_left' (by simp [toHex16_data_length, toHex16_length])]
    exact toHex16_fold b0

end SynHash
